import Mathlib

/-!
Verification of the `recall` incremental backup engine (Rust sources under `src/`)
against its natural-language specification.

The embedding models the filesystem as a pure oracle (`FS`): each field answers
one kind of syscall that the Rust code performs (`Path::exists`, `Path::is_dir`,
`fs::symlink_metadata`, `fs::metadata`, `fs::read_link`, and the content hash
`calculate_hash`).  `decide_action` is a direct translation of
`src/scanner.rs::decide_action` (the Unix configuration: the `#[cfg(unix)]`
permission-bit comparison is included).  Modification times are modelled in
nanoseconds, matching the nanosecond precision of `std::time::SystemTime`;
the Rust code compares `diff.as_millis() < 1000`, which the model renders as
`diff / 1000000 < 1000`.
-/

/-- Classification of one filesystem entry, from `src/actions.rs::SyncAction`. -/
inductive SyncAction where
  | CopyNew : SyncAction
  | CopyModified : SyncAction
  | Link : String → SyncAction
  | MakeSymlink : String → SyncAction
  | CreateDir : SyncAction
  | Skip : SyncAction
deriving DecidableEq

/-- The metadata fields of a successful `fs::symlink_metadata` / `fs::metadata`
call that `decide_action` inspects: symlink flag, byte length, Unix permission
bits, and modification time (`None` when `modified()` errors).  The mtime is in
nanoseconds. -/
structure Metadata where
  is_symlink : Bool
  len : Nat
  mode : Nat
  modified : Option Nat
deriving DecidableEq

/-- A pure snapshot of the filesystem, one field per kind of syscall used by
`decide_action`.  `path_exists` and `is_dir` follow symbolic links (as
`Path::exists` / `Path::is_dir` do); `symlink_metadata` and `read_link` do not;
`metadata` follows them.  `hash` is the outcome of
`src/hasher.rs::calculate_hash` (`none` models an I/O error). -/
structure FS where
  path_exists : String → Bool
  is_dir : String → Bool
  symlink_metadata : String → Option Metadata
  metadata : String → Option Metadata
  read_link : String → Option String
  hash : String → Option Nat

/-- One unit of work, from `src/actions.rs::FileTask` (paths as strings). -/
structure FileTask where
  rel_path : String
  src_path : String
  dest_path : String
  old_path : Option String
deriving DecidableEq

/-- The part of `src/config.rs::BackupConfig` that `decide_action` reads. -/
structure BackupConfig where
  check_content : Bool
deriving DecidableEq

/-- The "first backup" logic of `src/scanner.rs::decide_action`: the two
textually identical blocks at lines 179-192 (`old_path` is `None`) and
lines 196-208 (`!old_path.exists()`). -/
def first_backup_action (fs : FS) (src_path : String) : SyncAction :=
  if fs.is_dir src_path then SyncAction.CreateDir
  else
    match fs.symlink_metadata src_path with
    | some meta =>
      if meta.is_symlink then
        match fs.read_link src_path with
        | some target => SyncAction.MakeSymlink target
        | none => SyncAction.CopyNew
      else SyncAction.CopyNew
    | none => SyncAction.CopyNew

/-- The mtime comparison of `src/scanner.rs` lines 261-274: both `modified()`
calls must succeed, and the absolute difference, truncated to milliseconds
(`Duration::as_millis`), must be under 1000. -/
def mtime_match (src_modified old_modified : Option Nat) : Bool :=
  match src_modified, old_modified with
  | some src, some old =>
    let diff := if old < src then src - old else old - src
    diff / 1000000 < 1000
  | _, _ => false

/-- Direct translation of `src/scanner.rs::decide_action` (lines 176-300),
Unix configuration. -/
def decide_action (fs : FS) (task : FileTask) (config : BackupConfig) : SyncAction :=
  match task.old_path with
  | none => first_backup_action fs task.src_path
  | some old_path =>
    if fs.path_exists old_path = false then first_backup_action fs task.src_path
    else
      match fs.symlink_metadata task.src_path with
      | none => SyncAction.Skip
      | some src_meta =>
        if fs.is_dir task.src_path then SyncAction.CreateDir
        else if src_meta.is_symlink then
          match fs.read_link task.src_path with
          | some target =>
            match fs.symlink_metadata old_path with
            | some old_meta =>
              if old_meta.is_symlink then
                match fs.read_link old_path with
                | some old_target =>
                  if target = old_target then SyncAction.Link old_path
                  else SyncAction.MakeSymlink target
                | none => SyncAction.MakeSymlink target
              else SyncAction.MakeSymlink target
            | none => SyncAction.MakeSymlink target
          | none => SyncAction.Skip
        else
          match fs.metadata old_path with
          | none => SyncAction.CopyNew
          | some old_meta =>
            if src_meta.len ≠ old_meta.len then SyncAction.CopyModified
            else if src_meta.mode ≠ old_meta.mode then SyncAction.CopyModified
            else if mtime_match src_meta.modified old_meta.modified
                    && !config.check_content then SyncAction.Link old_path
            else if config.check_content then
              match fs.hash task.src_path, fs.hash old_path with
              | some s, some o =>
                if s = o then SyncAction.Link old_path else SyncAction.CopyModified
              | _, _ => SyncAction.CopyModified
            else SyncAction.CopyModified

/-- A concrete filesystem for the C1 witness: a regular file `src` whose
reference `old` has identical size and mode; the mtime difference is
999 ms in the first scenario and 1001 ms in the second. -/
def fsC1 (oldNs : Nat) : FS where
  path_exists := fun p => p = "old"
  is_dir := fun _ => false
  symlink_metadata := fun p =>
    if p = "src" then some ⟨false, 10, 420, some 2000000000⟩ else none
  metadata := fun p =>
    if p = "old" then some ⟨false, 10, 420, some oldNs⟩ else none
  read_link := fun _ => none
  hash := fun _ => none

/-- The task shared by the scanner witnesses: source `src`, reference `old`. -/
def taskC1 : FileTask := ⟨"f", "src", "dest", some "old"⟩

/-- Filesystem for the C2 witness: `src` and `old` agree on size, mode and
mtime but have different content hashes. -/
def fsC2 : FS where
  path_exists := fun p => p = "old"
  is_dir := fun _ => false
  symlink_metadata := fun p =>
    if p = "src" then some ⟨false, 10, 420, some 5000000000⟩ else none
  metadata := fun p =>
    if p = "old" then some ⟨false, 10, 420, some 5000000000⟩ else none
  read_link := fun _ => none
  hash := fun p => if p = "src" then some 111 else if p = "old" then some 222 else none

/-- Filesystem for the C4 witnesses: no reference exists; `d` is a directory,
`s` a symlink with target `t`, `f` a regular file. -/
def fsC4 : FS where
  path_exists := fun _ => false
  is_dir := fun p => p = "d"
  symlink_metadata := fun p =>
    if p = "s" then some ⟨true, 0, 420, none⟩
    else if p = "f" then some ⟨false, 3, 420, some 0⟩
    else none
  metadata := fun _ => none
  read_link := fun p => if p = "s" then some "t" else none
  hash := fun _ => none

/-- Filesystem for the C5 witness: `src` and `old` differ in length but agree
on mode and mtime. -/
def fsC5 : FS where
  path_exists := fun p => p = "old"
  is_dir := fun _ => false
  symlink_metadata := fun p =>
    if p = "src" then some ⟨false, 10, 420, some 5000000000⟩ else none
  metadata := fun p =>
    if p = "old" then some ⟨false, 11, 420, some 5000000000⟩ else none
  read_link := fun _ => none
  hash := fun _ => none

/-- Filesystem for the C6 counterexample: `src` is a symbolic link that points
at a directory (so `Path::is_dir` is true for it), and the reference `old` is a
symbolic link with the identical target. -/
def fsC6dir : FS where
  path_exists := fun p => p = "old"
  is_dir := fun p => p = "src"
  symlink_metadata := fun p =>
    if p = "src" then some ⟨true, 0, 420, none⟩
    else if p = "old" then some ⟨true, 0, 420, none⟩
    else none
  metadata := fun _ => none
  read_link := fun p => if p = "src" ∨ p = "old" then some "t" else none
  hash := fun _ => none

/-- Filesystem for the C6 witness: `src` is a symlink to a non-directory,
reference `old` is a symlink with the same target `t`. -/
def fsC6 : FS where
  path_exists := fun p => p = "old"
  is_dir := fun _ => false
  symlink_metadata := fun p =>
    if p = "src" then some ⟨true, 0, 420, none⟩
    else if p = "old" then some ⟨true, 0, 420, none⟩
    else none
  metadata := fun _ => none
  read_link := fun p => if p = "src" ∨ p = "old" then some "t" else none
  hash := fun _ => none

/-- Filesystem for the C10 witness: the reference `old` exists but
`fs::symlink_metadata` on the source fails. -/
def fsC10 : FS where
  path_exists := fun p => p = "old"
  is_dir := fun _ => false
  symlink_metadata := fun _ => none
  metadata := fun p => if p = "old" then some ⟨false, 10, 420, some 0⟩ else none
  read_link := fun _ => none
  hash := fun _ => none

/-- `src/actions.rs::BackupStats`: the counters aggregated by the executor. -/
structure BackupStats where
  total_files : Nat
  copied_new : Nat
  copied_modified : Nat
  linked : Nat
  skipped : Nat
  failed : Nat
  bytes_copied : Nat
deriving DecidableEq

/-- `BackupStats::new()`: all counters zero. -/
def BackupStats.new : BackupStats := ⟨0, 0, 0, 0, 0, 0, 0⟩

/-- The per-task statistics update of `src/executor.rs::BackupExecutor::execute`
(lines 74-97): `res` is the outcome of `process_task` (`some bytes` for
`Ok(bytes)`, `none` for `Err`).  `total_files` is incremented first; a success
then bumps the counter matching the action (a successful `CreateDir`
decrements `total_files` back out instead); a failure bumps `failed`. -/
def update_stats (s : BackupStats) (action : SyncAction) (res : Option Nat) : BackupStats :=
  let s := { s with total_files := s.total_files + 1 }
  match res with
  | some bytes =>
    match action with
    | SyncAction.CopyNew =>
      { s with copied_new := s.copied_new + 1, bytes_copied := s.bytes_copied + bytes }
    | SyncAction.CopyModified =>
      { s with copied_modified := s.copied_modified + 1, bytes_copied := s.bytes_copied + bytes }
    | SyncAction.Link _ => { s with linked := s.linked + 1 }
    | SyncAction.MakeSymlink _ => { s with linked := s.linked + 1 }
    | SyncAction.CreateDir => { s with total_files := s.total_files - 1 }
    | SyncAction.Skip => { s with skipped := s.skipped + 1 }
  | none => { s with failed := s.failed + 1 }

/-- A filesystem node for the commit-protocol model: a directory, a regular
file, or a symbolic link with its target. -/
inductive Node where
  | dir : Node
  | file : Node
  | symlink : String → Node
deriving DecidableEq

/-- The destination tree for the commit protocol: a finite association list
from path to node (each generation directory is one node; the contents of a
generation are irrelevant to `commit_backup`). -/
abbrev World := List (String × Node)

/-- Look a path up in the world (the node `fs::symlink_metadata` would see). -/
def lookupNode (w : World) (p : String) : Option Node :=
  (w.find? (fun e => e.1 == p)).map (·.2)

/-- Remove a path (models `fs::remove_file` / `fs::remove_dir` succeeding,
and is a no-op when the path is absent). -/
def removeNode (w : World) (p : String) : World :=
  w.filter (fun e => !(e.1 == p))

/-- Bind a path to a node, replacing any previous binding. -/
def insertNode (w : World) (p : String) (n : Node) : World :=
  (p, n) :: removeNode w p

/-- `Path::exists`, which follows symbolic links (one level suffices here:
targets of symlinks are never themselves symlinks in this model's use). -/
def existsPath (w : World) (p : String) : Bool :=
  match lookupNode w p with
  | some (Node.symlink t) => (lookupNode w t).isSome
  | some _ => true
  | none => false

/-- Direct translation of `src/executor.rs::commit_backup` (lines 224-274),
Unix configuration, returning the final world together with the result.
Steps in order: refuse if the final directory exists; rename the temporary
directory (error if it is absent); best-effort removal of the `current`
marker (`.ok()` in the source ignores failures; the model's single-node
directories make removal always succeed); create the new `current` symlink
(`std::os::unix::fs::symlink` fails iff the path still exists). -/
def commit_backup (w : World) (temp_path final_path link_path : String) :
    World × Except String Unit :=
  if existsPath w final_path then
    (w, Except.error "Destination backup folder already exists")
  else
    match lookupNode w temp_path with
    | none => (w, Except.error "Failed to rename")
    | some node =>
      let w1 := insertNode (removeNode w temp_path) final_path node
      let w2 := if existsPath w1 link_path || (lookupNode w1 link_path).isSome
                then removeNode w1 link_path else w1
      match lookupNode w2 link_path with
      | some _ => (w2, Except.error "Failed to create symlink on Unix")
      | none => (insertNode w2 link_path (Node.symlink final_path), Except.ok ())

/-- World for the C3 witness, success case: a finished temporary generation, a
previous generation, and a `current` marker pointing at it. -/
def worldC3 : World :=
  [("gen.partial", Node.dir), ("oldgen", Node.dir), ("current", Node.symlink "oldgen")]

/-- World for the C3 witness, error case: the final name already exists. -/
def worldC3b : World := [("gen.partial", Node.dir), ("gen", Node.dir)]

/-- Greedily take up to `w` leading ASCII digits (the digit scan of chrono's
`scan::number` with maximum width `w`). -/
def takeDigits : Nat → List Char → List Char × List Char
  | 0, cs => ([], cs)
  | _ + 1, [] => ([], [])
  | w + 1, c :: cs =>
    if c.isDigit then
      let r := takeDigits w cs
      (c :: r.1, r.2)
    else ([], c :: cs)

/-- Numeric value of a digit run. -/
def digitsVal (ds : List Char) : Nat :=
  ds.foldl (fun acc c => acc * 10 + (c.toNat - 48)) 0

/-- chrono `scan::number(s, 1, w)`: consume between 1 and `w` digits. -/
def scanNumber (w : Nat) (cs : List Char) : Option (Nat × List Char) :=
  let r := takeDigits w cs
  if r.1.isEmpty then none else some (digitsVal r.1, r.2)

/-- chrono `scan::number(s, 1, usize::MAX)`: an unbounded digit run (used for
the year when an explicit sign is present). -/
def scanNumberAll (cs : List Char) : Option (Nat × List Char) :=
  let ds := cs.takeWhile Char.isDigit
  if ds.isEmpty then none else some (digitsVal ds, cs.dropWhile Char.isDigit)

/-- chrono's parser skips leading whitespace before every numeric item. -/
def skipWs (cs : List Char) : List Char := cs.dropWhile Char.isWhitespace

/-- Match one literal character of the format string. -/
def lit (c : Char) : List Char → Option (List Char)
  | d :: cs => if d = c then some cs else none
  | [] => none

/-- `%Y`: optional sign; with an explicit sign the digit run is unbounded,
without one at most 4 digits are consumed. -/
def scanYear (cs : List Char) : Option (Int × List Char) :=
  let s := skipWs cs
  if s.head? = some '-' then (scanNumberAll s.tail).map (fun r => (-(r.1 : Int), r.2))
  else if s.head? = some '+' then (scanNumberAll s.tail).map (fun r => ((r.1 : Int), r.2))
  else (scanNumber 4 s).map (fun r => ((r.1 : Int), r.2))

/-- `%m`, `%d`, `%H`, `%M`, `%S`: up to two digits each. -/
def scanField (cs : List Char) : Option (Nat × List Char) :=
  scanNumber 2 (skipWs cs)

/-- The six fields parsed from a timestamp-formatted name. -/
structure TsFields where
  year : Int
  month : Nat
  day : Nat
  hour : Nat
  minute : Nat
  second : Nat
deriving DecidableEq

/-- chrono parse of the fixed format `"%Y-%m-%d_%H-%M-%S"`: the items in
order, returning the fields and the unconsumed rest of the input. -/
def parseTimestamp (cs : List Char) : Option (TsFields × List Char) :=
  (scanYear cs).bind fun yr =>
  (lit '-' yr.2).bind fun cs1 =>
  (scanField cs1).bind fun mo =>
  (lit '-' mo.2).bind fun cs2 =>
  (scanField cs2).bind fun dd =>
  (lit '_' dd.2).bind fun cs3 =>
  (scanField cs3).bind fun hh =>
  (lit '-' hh.2).bind fun cs4 =>
  (scanField cs4).bind fun mi =>
  (lit '-' mi.2).bind fun cs5 =>
  (scanField cs5).bind fun sec =>
  some (⟨yr.1, mo.1, dd.1, hh.1, mi.1, sec.1⟩, sec.2)

/-- Proleptic-Gregorian leap year (chrono computes this modulo 400, which
`Int.emod` matches). -/
def isLeapYear (y : Int) : Bool :=
  y % 4 == 0 && (y % 100 != 0 || y % 400 == 0)

/-- Days in a month of a given year. -/
def daysInMonth (y : Int) (m : Nat) : Nat :=
  match m with
  | 1 => 31
  | 2 => if isLeapYear y then 29 else 28
  | 3 => 31
  | 4 => 30
  | 5 => 31
  | 6 => 30
  | 7 => 31
  | 8 => 31
  | 9 => 30
  | 10 => 31
  | 11 => 30
  | 12 => 31
  | _ => 0

/-- Field validation performed by chrono when assembling the `NaiveDateTime`:
year within the supported range, calendar-valid month/day, and a time of day
where the second may be 60 (leap second). -/
def validDateTime (f : TsFields) : Bool :=
  decide (-262144 ≤ f.year) && decide (f.year ≤ 262143)
  && decide (1 ≤ f.month) && decide (f.month ≤ 12)
  && decide (1 ≤ f.day) && decide (f.day ≤ daysInMonth f.year f.month)
  && decide (f.hour ≤ 23) && decide (f.minute ≤ 59) && decide (f.second ≤ 60)

/-- `is_valid_backup_folder_name` of `src/scanner.rs` / `src/prune.rs`:
`NaiveDateTime::parse_from_str(s, "%Y-%m-%d_%H-%M-%S").is_ok()` — the whole
name must be consumed and the fields must form a valid date-time. -/
def is_valid_backup_folder_name (name : String) : Bool :=
  match parseTimestamp name.toList with
  | some (f, []) => validDateTime f
  | _ => false

/-- Rust `path.to_string_lossy().ends_with(".partial")` on a `read_dir` entry,
expressed on the entry name: equivalent on the full path string because the
name is preceded by a path separator and `".partial"` contains none. -/
def endsWithPartial (s : String) : Bool :=
  List.isSuffixOf ".partial".toList s.toList

/-- One entry of the destination directory as observed by `fs::read_dir`:
its file name and whether the path is a directory. -/
structure DirEntry where
  name : String
  isDir : Bool
deriving DecidableEq

/-- The entry filter shared by `scanner.rs::find_latest_backup` (lines 40-45)
and `prune.rs::find_all_backups` (lines 33-38). -/
def backupFilter (e : DirEntry) : Bool :=
  e.isDir && !endsWithPartial e.name && !(e.name == "current")
    && is_valid_backup_folder_name e.name

/-- Lexicographic comparison of character lists by code point — the order in
which Rust's `Vec::sort` arranges sibling `PathBuf`s (byte order of the
names; on the ASCII names the filter retains, byte order and code-point
order coincide). -/
def charListLe : List Char → List Char → Bool
  | [], _ => true
  | _ :: _, [] => false
  | a :: as, b :: bs =>
    if a.toNat < b.toNat then true
    else if b.toNat < a.toNat then false
    else charListLe as bs

/-- Lexicographic order on names. -/
def nameLe (a b : String) : Bool := charListLe a.toList b.toList

/-- `prune.rs::find_all_backups` (and the identical listing computed inside
`scanner.rs::find_latest_backup`): filter the entries, then sort the names
ascending (`backups.sort()`; the order is antisymmetric, so any sorting
algorithm yields the same list). -/
def find_all_backups (entries : List DirEntry) : List String :=
  List.insertionSort (fun a b => nameLe a b = true)
    ((entries.filter backupFilter).map (·.name))

/-- `scanner.rs::find_latest_backup`: the last element of the sorted listing
(`backups.last()`). -/
def find_latest_backup (entries : List DirEntry) : Option String :=
  (find_all_backups entries).getLast?

/-- `prune.rs::prune_backups`, modelled on the directory listing: returns the
names actually deleted and the listing that remains.  When the count is within
`keep`, or in dry-run mode, nothing is deleted. -/
def prune_backups (entries : List DirEntry) (keep : Nat) (dry_run : Bool) :
    List String × List DirEntry :=
  let backups := find_all_backups entries
  if backups.length ≤ keep then ([], entries)
  else
    let toDelete := backups.take (backups.length - keep)
    if dry_run then ([], entries)
    else (toDelete, entries.filter (fun e => !(decide (e.name ∈ toDelete))))

/-- Destination listing for the C7 and C9 witnesses: three committed
generations, a `current` marker, an unfinished generation, a stray file and a
stray directory. -/
def entriesC7 : List DirEntry :=
  [⟨"2024-03-01_10-00-00", true⟩, ⟨"2023-12-31_23-59-59", true⟩,
   ⟨"current", true⟩, ⟨"2024-03-02_09-30-00.partial", true⟩,
   ⟨"notes.txt", false⟩, ⟨"2024-01-15_14-30-00", true⟩, ⟨"misc", true⟩]

/-- C1: for a regular-file task (source neither a directory nor a symlink) whose
reference exists with readable metadata of equal size and equal Unix permission
bits, and with content checking off: an absolute mtime difference under 1000 ms
(i.e. under 10^9 ns) yields `Link(reference)`, and a difference of 1000 ms or
more yields `CopyModified`. -/
theorem C1_mtime_fuzz (fs : FS) (task : FileTask) (p : String)
    (src_meta old_meta : Metadata) (a b : Nat)
    (hold : task.old_path = some p)
    (hex : fs.path_exists p = true)
    (hsm : fs.symlink_metadata task.src_path = some src_meta)
    (hnd : fs.is_dir task.src_path = false)
    (hns : src_meta.is_symlink = false)
    (hom : fs.metadata p = some old_meta)
    (hlen : src_meta.len = old_meta.len)
    (hmode : src_meta.mode = old_meta.mode)
    (hma : src_meta.modified = some a)
    (hmb : old_meta.modified = some b) :
    ((if b < a then a - b else b - a) < 1000000000 →
      decide_action fs task ⟨false⟩ = SyncAction.Link p)
    ∧ (1000000000 ≤ (if b < a then a - b else b - a) →
      decide_action fs task ⟨false⟩ = SyncAction.CopyModified) := by
  have hmm : mtime_match src_meta.modified old_meta.modified
      = decide ((if b < a then a - b else b - a) / 1000000 < 1000) := by
    rw [hma, hmb]; rfl
  constructor
  · intro hlt
    have hql : (if b < a then a - b else b - a) / 1000000 < 1000 :=
      Nat.div_lt_of_lt_mul (by omega)
    simp only [decide_action, hold, hex, hsm, hnd, hns, hom, hlen, hmode]
    simp [hmm, hql]
  · intro hge
    have hqg : ¬ (if b < a then a - b else b - a) / 1000000 < 1000 := by
      have : 1000 ≤ (if b < a then a - b else b - a) / 1000000 :=
        Nat.le_div_iff_mul_le (by omega) |>.mpr (by omega)
      omega
    simp only [decide_action, hold, hex, hsm, hnd, hns, hom, hlen, hmode]
    simp [hmm, hqg]

/-- C1 witness: with mtimes 2000 ms and 1001 ms (999 ms apart) the action is
`Link "old"`; with mtimes 2000 ms and 3001 ms (1001 ms apart) it is
`CopyModified`. -/
theorem C1_mtime_fuzz_witness :
    decide_action (fsC1 1001000000) taskC1 ⟨false⟩ = SyncAction.Link "old"
    ∧ decide_action (fsC1 3001000000) taskC1 ⟨false⟩ = SyncAction.CopyModified := by
  constructor
  · exact (C1_mtime_fuzz (fsC1 1001000000) taskC1 "old"
      ⟨false, 10, 420, some 2000000000⟩ ⟨false, 10, 420, some 1001000000⟩
      2000000000 1001000000 rfl (by decide) (by decide) (by decide) rfl
      (by decide) rfl rfl rfl rfl).1 (by decide)
  · exact (C1_mtime_fuzz (fsC1 3001000000) taskC1 "old"
      ⟨false, 10, 420, some 2000000000⟩ ⟨false, 10, 420, some 3001000000⟩
      2000000000 3001000000 rfl (by decide) (by decide) (by decide) rfl
      (by decide) rfl rfl rfl rfl).2 (by decide)

/-- C2: for a regular-file task whose reference exists with readable metadata,
equal size and permissions: with `check_content = true` the action is
`Link(reference)` exactly when both hashes compute and agree, and otherwise it
is `CopyModified` (hash mismatch or any hash failure), regardless of mtimes;
with `check_content = false` and mtimes within the fuzz window the action is
`Link(reference)` and does not depend on the hash oracle at all. -/
theorem C2_content_check (fs : FS) (task : FileTask) (p : String)
    (src_meta old_meta : Metadata)
    (hold : task.old_path = some p)
    (hex : fs.path_exists p = true)
    (hsm : fs.symlink_metadata task.src_path = some src_meta)
    (hnd : fs.is_dir task.src_path = false)
    (hns : src_meta.is_symlink = false)
    (hom : fs.metadata p = some old_meta)
    (hlen : src_meta.len = old_meta.len)
    (hmode : src_meta.mode = old_meta.mode) :
    (decide_action fs task ⟨true⟩ = SyncAction.Link p ↔
      ∃ h, fs.hash task.src_path = some h ∧ fs.hash p = some h)
    ∧ (decide_action fs task ⟨true⟩ = SyncAction.Link p
        ∨ decide_action fs task ⟨true⟩ = SyncAction.CopyModified)
    ∧ (∀ a b, src_meta.modified = some a → old_meta.modified = some b →
        (if b < a then a - b else b - a) < 1000000000 →
        ∀ g : String → Option Nat,
          decide_action { fs with hash := g } task ⟨false⟩ = SyncAction.Link p) := by
  have hred : decide_action fs task ⟨true⟩ =
      match fs.hash task.src_path, fs.hash p with
      | some s, some o =>
        if s = o then SyncAction.Link p else SyncAction.CopyModified
      | _, _ => SyncAction.CopyModified := by
    simp [decide_action, hold, hex, hsm, hnd, hns, hom, hlen, hmode]
  refine ⟨?_, ?_, ?_⟩
  · rw [hred]
    rcases hs : fs.hash task.src_path with _ | s
    · simp
    · rcases ho : fs.hash p with _ | o
      · simp
      · by_cases hso : s = o
        · subst hso; simp
        · simp only [if_neg hso]
          constructor
          · intro h; exact absurd h (by simp)
          · rintro ⟨h, h1, h2⟩
            exact absurd ((Option.some_injective _ h1).trans
              (Option.some_injective _ h2).symm) hso
  · rw [hred]
    rcases fs.hash task.src_path with _ | s
    · right; rfl
    · rcases fs.hash p with _ | o
      · right; rfl
      · by_cases hso : s = o
        · left; simp [hso]
        · right; simp [hso]
  · intro a b hma hmb hlt g
    have hmm : mtime_match src_meta.modified old_meta.modified = true := by
      rw [hma, hmb]
      simp only [mtime_match, decide_eq_true_eq]
      exact Nat.div_lt_of_lt_mul (by omega)
    simp [decide_action, hold, hex, hsm, hnd, hns, hom, hlen, hmode, hmm]

/-- C2 witness: on `fsC2` (same size, mode and mtime, different hashes) the
content check forces `CopyModified`, and with the check off the action is
`Link "old"` whatever the hash oracle says. -/
theorem C2_content_check_witness :
    decide_action fsC2 taskC1 ⟨true⟩ = SyncAction.CopyModified
    ∧ decide_action { fsC2 with hash := fun _ => some 7 } taskC1 ⟨false⟩
        = SyncAction.Link "old" := by
  have h := C2_content_check fsC2 taskC1 "old"
    ⟨false, 10, 420, some 5000000000⟩ ⟨false, 10, 420, some 5000000000⟩
    rfl (by decide) (by decide) (by decide) rfl (by decide) rfl rfl
  constructor
  · rcases h.2.1 with hl | hc
    · exact absurd (h.1.mp hl) (by decide)
    · exact hc
  · exact h.2.2 5000000000 5000000000 rfl rfl (by decide) (fun _ => some 7)

/-- C4: when the task has no reference path, or its reference path does not
exist on disk, the action is `CreateDir` for a directory, `MakeSymlink(target)`
for a symbolic link with readable target, and `CopyNew` for a regular file. -/
theorem C4_first_backup (fs : FS) (task : FileTask) (config : BackupConfig)
    (href : task.old_path = none
      ∨ ∃ p, task.old_path = some p ∧ fs.path_exists p = false) :
    (fs.is_dir task.src_path = true →
      decide_action fs task config = SyncAction.CreateDir)
    ∧ (∀ m, fs.is_dir task.src_path = false →
        fs.symlink_metadata task.src_path = some m →
        (m.is_symlink = false → decide_action fs task config = SyncAction.CopyNew)
        ∧ (m.is_symlink = true → ∀ t, fs.read_link task.src_path = some t →
            decide_action fs task config = SyncAction.MakeSymlink t)) := by
  have hfb : decide_action fs task config = first_backup_action fs task.src_path := by
    rcases href with h | ⟨p, hp, hpe⟩
    · simp [decide_action, h]
    · simp [decide_action, hp, hpe]
  rw [hfb]
  constructor
  · intro hd; simp [first_backup_action, hd]
  · intro m hnd hsm
    constructor
    · intro hns; simp [first_backup_action, hnd, hsm, hns]
    · intro hsym t hrl; simp [first_backup_action, hnd, hsm, hsym, hrl]

/-- C4 witness: on `fsC4` (nothing exists in the reference generation) the
directory `d` gets `CreateDir`, the symlink `s` gets `MakeSymlink "t"`, and the
regular file `f` gets `CopyNew` — both with no reference path at all and with a
reference path that does not exist. -/
theorem C4_first_backup_witness :
    decide_action fsC4 ⟨"d", "d", "x", none⟩ ⟨false⟩ = SyncAction.CreateDir
    ∧ decide_action fsC4 ⟨"s", "s", "x", none⟩ ⟨false⟩ = SyncAction.MakeSymlink "t"
    ∧ decide_action fsC4 ⟨"f", "f", "x", none⟩ ⟨false⟩ = SyncAction.CopyNew
    ∧ decide_action fsC4 ⟨"f", "f", "x", some "gone"⟩ ⟨false⟩ = SyncAction.CopyNew := by
  refine ⟨?_, ?_, ?_, ?_⟩
  · exact (C4_first_backup fsC4 ⟨"d", "d", "x", none⟩ ⟨false⟩ (Or.inl rfl)).1 (by decide)
  · exact ((C4_first_backup fsC4 ⟨"s", "s", "x", none⟩ ⟨false⟩ (Or.inl rfl)).2
      ⟨true, 0, 420, none⟩ (by decide) (by decide)).2 rfl "t" (by decide)
  · exact ((C4_first_backup fsC4 ⟨"f", "f", "x", none⟩ ⟨false⟩ (Or.inl rfl)).2
      ⟨false, 3, 420, some 0⟩ (by decide) (by decide)).1 rfl
  · exact ((C4_first_backup fsC4 ⟨"f", "f", "x", some "gone"⟩ ⟨false⟩
      (Or.inr ⟨"gone", rfl, by decide⟩)).2
      ⟨false, 3, 420, some 0⟩ (by decide) (by decide)).1 rfl

/-- C5: for a regular-file task whose reference exists with readable metadata,
a source length different from the reference length forces `CopyModified`, for
every configuration (the size check precedes the permission, mtime and hash
checks). -/
theorem C5_size_mismatch (fs : FS) (task : FileTask) (p : String)
    (src_meta old_meta : Metadata)
    (hold : task.old_path = some p)
    (hex : fs.path_exists p = true)
    (hsm : fs.symlink_metadata task.src_path = some src_meta)
    (hnd : fs.is_dir task.src_path = false)
    (hns : src_meta.is_symlink = false)
    (hom : fs.metadata p = some old_meta)
    (hlen : src_meta.len ≠ old_meta.len) :
    ∀ config, decide_action fs task config = SyncAction.CopyModified := by
  intro config
  simp [decide_action, hold, hex, hsm, hnd, hns, hom, hlen]

/-- C5 witness: on `fsC5` (lengths 10 vs 11, same mode and mtime) the action is
`CopyModified` independently of the content-check flag. -/
theorem C5_size_mismatch_witness :
    decide_action fsC5 taskC1 ⟨false⟩ = SyncAction.CopyModified
    ∧ decide_action fsC5 taskC1 ⟨true⟩ = SyncAction.CopyModified := by
  have h := C5_size_mismatch fsC5 taskC1 "old"
    ⟨false, 10, 420, some 5000000000⟩ ⟨false, 11, 420, some 5000000000⟩
    rfl (by decide) (by decide) (by decide) rfl (by decide) (by decide)
  exact ⟨h ⟨false⟩, h ⟨true⟩⟩

/-- C6 counterexample: the claim omits the directory test that precedes the
symlink test in `decide_action`.  On `fsC6dir` the source is a symbolic link
whose target is a directory (`Path::is_dir` follows links, so it reports true);
the reference exists and is a symlink with the identical target, yet the action
is `CreateDir`, not `Link`, `MakeSymlink`, or `Skip` as the claim requires. -/
theorem C6_symlink_counterexample :
    fsC6dir.path_exists "old" = true
    ∧ (fsC6dir.symlink_metadata "src").map (·.is_symlink) = some true
    ∧ fsC6dir.read_link "src" = some "t"
    ∧ (fsC6dir.symlink_metadata "old").map (·.is_symlink) = some true
    ∧ fsC6dir.read_link "old" = some "t"
    ∧ decide_action fsC6dir taskC1 ⟨false⟩ = SyncAction.CreateDir
    ∧ SyncAction.CreateDir ≠ SyncAction.Link "old"
    ∧ SyncAction.CreateDir ≠ SyncAction.MakeSymlink "t"
    ∧ SyncAction.CreateDir ≠ SyncAction.Skip := by decide

/-- C6 (amended): for a task whose reference exists, whose source metadata is
readable and marks a symbolic link, and whose source path does not resolve to a
directory: if the link target cannot be read the action is `Skip`; otherwise
the action is `Link(reference)` exactly when the reference is also a symbolic
link with the identical target, and `MakeSymlink(target)` otherwise. -/
theorem C6_symlink_amended (fs : FS) (task : FileTask) (p : String) (m : Metadata)
    (config : BackupConfig)
    (hold : task.old_path = some p)
    (hex : fs.path_exists p = true)
    (hnd : fs.is_dir task.src_path = false)
    (hsm : fs.symlink_metadata task.src_path = some m)
    (hsym : m.is_symlink = true) :
    (fs.read_link task.src_path = none →
      decide_action fs task config = SyncAction.Skip)
    ∧ (∀ t, fs.read_link task.src_path = some t →
        ((decide_action fs task config = SyncAction.Link p) ↔
          (∃ om, fs.symlink_metadata p = some om ∧ om.is_symlink = true
            ∧ fs.read_link p = some t))
        ∧ ((¬ ∃ om, fs.symlink_metadata p = some om ∧ om.is_symlink = true
            ∧ fs.read_link p = some t) →
          decide_action fs task config = SyncAction.MakeSymlink t)) := by
  constructor
  · intro hrl
    simp [decide_action, hold, hex, hsm, hnd, hsym, hrl]
  · intro t hrl
    rcases Option.eq_none_or_eq_some (fs.symlink_metadata p) with hmo | ⟨om, hmo⟩
    · have he : decide_action fs task config = SyncAction.MakeSymlink t := by
        simp [decide_action, hold, hex, hsm, hnd, hsym, hrl, hmo]
      refine ⟨he ▸ ⟨fun h => by simp at h, ?_⟩, fun _ => he⟩
      rintro ⟨om, h1, -⟩
      rw [hmo] at h1
      simp at h1
    · by_cases hos : om.is_symlink = true
      · rcases Option.eq_none_or_eq_some (fs.read_link p) with hro | ⟨ot, hro⟩
        · have he : decide_action fs task config = SyncAction.MakeSymlink t := by
            simp [decide_action, hold, hex, hsm, hnd, hsym, hrl, hmo, hos, hro]
          refine ⟨he ▸ ⟨fun h => by simp at h, ?_⟩, fun _ => he⟩
          rintro ⟨om', -, -, h3⟩
          rw [hro] at h3
          simp at h3
        · by_cases ht : t = ot
          · have he : decide_action fs task config = SyncAction.Link p := by
              simp [decide_action, hold, hex, hsm, hnd, hsym, hrl, hmo, hos, hro, ht]
            have hcond : ∃ om', fs.symlink_metadata p = some om'
                ∧ om'.is_symlink = true ∧ fs.read_link p = some t :=
              ⟨om, hmo, hos, by rw [ht, hro]⟩
            exact ⟨⟨fun _ => hcond, fun _ => he⟩, fun hno => absurd hcond hno⟩
          · have he : decide_action fs task config = SyncAction.MakeSymlink t := by
              simp [decide_action, hold, hex, hsm, hnd, hsym, hrl, hmo, hos, hro, ht]
            refine ⟨he ▸ ⟨fun h => by simp at h, ?_⟩, fun _ => he⟩
            rintro ⟨om', -, -, h3⟩
            rw [hro] at h3
            exact absurd (Option.some_injective _ h3).symm ht
      · have hosf : om.is_symlink = false := by
          cases h : om.is_symlink
          · rfl
          · exact absurd h hos
        have he : decide_action fs task config = SyncAction.MakeSymlink t := by
          simp [decide_action, hold, hex, hsm, hnd, hsym, hrl, hmo, hosf]
        refine ⟨he ▸ ⟨fun h => by simp at h, ?_⟩, fun _ => he⟩
        rintro ⟨om', h1, h2, -⟩
        rw [hmo] at h1
        rw [← Option.some_injective _ h1] at h2
        exact absurd h2 hos

/-- C6 witness: on `fsC6` (source symlink to a non-directory, reference symlink
with the identical target `t`) the amended theorem yields `Link "old"`. -/
theorem C6_symlink_amended_witness :
    decide_action fsC6 taskC1 ⟨false⟩ = SyncAction.Link "old" := by
  exact (((C6_symlink_amended fsC6 taskC1 "old" ⟨true, 0, 420, none⟩ ⟨false⟩
    rfl (by decide) (by decide) (by decide) rfl).2 "t" (by decide)).1).mpr
    ⟨⟨true, 0, 420, none⟩, by decide, rfl, by decide⟩

/-- C10: when the reference path exists but `fs::symlink_metadata` on the
source fails, the action is `Skip` (not `CopyNew`, `CopyModified`, or an
error), and the executor counts a `Skip` outcome in `skipped` alone. -/
theorem C10_unreadable_source (fs : FS) (task : FileTask) (p : String)
    (config : BackupConfig)
    (hold : task.old_path = some p)
    (hex : fs.path_exists p = true)
    (hsm : fs.symlink_metadata task.src_path = none) :
    decide_action fs task config = SyncAction.Skip
    ∧ (∀ s : BackupStats, ∀ bytes,
        (update_stats s (decide_action fs task config) (some bytes)).skipped
          = s.skipped + 1
        ∧ (update_stats s (decide_action fs task config) (some bytes)).copied_new
          = s.copied_new
        ∧ (update_stats s (decide_action fs task config) (some bytes)).copied_modified
          = s.copied_modified
        ∧ (update_stats s (decide_action fs task config) (some bytes)).failed
          = s.failed) := by
  have hskip : decide_action fs task config = SyncAction.Skip := by
    simp [decide_action, hold, hex, hsm]
  refine ⟨hskip, ?_⟩
  intro s bytes
  rw [hskip]
  exact ⟨rfl, rfl, rfl, rfl⟩

/-- C10 witness: on `fsC10` (reference `old` exists, source metadata
unreadable) the action is `Skip` and the stats update from zero counts one
skipped file. -/
theorem C10_unreadable_source_witness :
    decide_action fsC10 taskC1 ⟨false⟩ = SyncAction.Skip
    ∧ (update_stats BackupStats.new (decide_action fsC10 taskC1 ⟨false⟩)
        (some 0)).skipped = 1 := by
  have h := C10_unreadable_source fsC10 taskC1 "old" ⟨false⟩ rfl (by decide) rfl
  exact ⟨h.1, (h.2 BackupStats.new 0).1⟩

/-- Helper: looking up a path just removed yields nothing. -/
theorem lookupNode_removeNode_self (w : World) (p : String) :
    lookupNode (removeNode w p) p = none := by
  simp only [lookupNode, removeNode, Option.map_eq_none', List.find?_eq_none]
  intro x hx
  have h := List.of_mem_filter hx
  simpa using h

/-- Helper: removing an absent path is a no-op. -/
theorem removeNode_of_lookup_none {w : World} {p : String}
    (h : lookupNode w p = none) : removeNode w p = w := by
  simp only [lookupNode, Option.map_eq_none', List.find?_eq_none] at h
  apply List.filter_eq_self.mpr
  intro e he
  simpa using h e he

/-- C3: `commit_backup` refuses with an error and leaves the world unchanged
when the final-name directory already exists; otherwise (with the temporary
directory present) it renames the temporary directory to the final name,
removes any existing `current` marker (tolerating its absence), and creates a
fresh `current` symbolic link pointing at the renamed directory — in that
order, returning success. -/
theorem C3_commit_protocol (w : World) (temp_path final_path link_path : String) :
    (existsPath w final_path = true →
      commit_backup w temp_path final_path link_path
        = (w, Except.error "Destination backup folder already exists"))
    ∧ (existsPath w final_path = false →
        ∀ node, lookupNode w temp_path = some node →
        commit_backup w temp_path final_path link_path
          = (insertNode
              (removeNode (insertNode (removeNode w temp_path) final_path node)
                link_path)
              link_path (Node.symlink final_path),
             Except.ok ())) := by
  constructor
  · intro h
    simp [commit_backup, h]
  · intro h node hl
    have hw1 : insertNode (removeNode w temp_path) final_path node
        = insertNode (removeNode w temp_path) final_path node := rfl
    rcases Option.eq_none_or_eq_some
        (lookupNode (insertNode (removeNode w temp_path) final_path node) link_path)
      with hnl | ⟨n, hnl⟩
    · have hep : existsPath (insertNode (removeNode w temp_path) final_path node)
          link_path = false := by
        simp [existsPath, hnl]
      simp [commit_backup, h, hl, hep, hnl, removeNode_of_lookup_none hnl]
    · simp [commit_backup, h, hl, hnl, lookupNode_removeNode_self]

/-- C3 witness: on `worldC3b` (final name taken) the commit fails and the
world is unchanged; on `worldC3` the commit succeeds, the generation is
renamed, the old `current` marker is gone and `current` now points at the
final directory. -/
theorem C3_commit_protocol_witness :
    commit_backup worldC3b "gen.partial" "gen" "current"
      = (worldC3b, Except.error "Destination backup folder already exists")
    ∧ commit_backup worldC3 "gen.partial" "gen" "current"
      = ([("current", Node.symlink "gen"), ("gen", Node.dir), ("oldgen", Node.dir)],
         Except.ok ()) := by
  constructor
  · exact (C3_commit_protocol worldC3b "gen.partial" "gen" "current").1 (by decide)
  · have h := (C3_commit_protocol worldC3 "gen.partial" "gen" "current").2
      (by decide) Node.dir (by decide)
    rw [h]
    rfl

/-- C8 counterexample: the claim as stated fails on `CreateDir` tasks.  A
successful `CreateDir` increments none of the four success counters
(contradicting "a successful task increments exactly one success counter"),
and a failed `CreateDir` leaves `total_files` incremented (contradicting
"every directory task is excluded from total_files"). -/
theorem C8_stats_counterexample :
    (update_stats BackupStats.new SyncAction.CreateDir (some 0)).copied_new = 0
    ∧ (update_stats BackupStats.new SyncAction.CreateDir (some 0)).copied_modified = 0
    ∧ (update_stats BackupStats.new SyncAction.CreateDir (some 0)).linked = 0
    ∧ (update_stats BackupStats.new SyncAction.CreateDir (some 0)).skipped = 0
    ∧ (update_stats BackupStats.new SyncAction.CreateDir (some 0)).failed = 0
    ∧ (update_stats BackupStats.new SyncAction.CreateDir none).total_files = 1
    ∧ (update_stats BackupStats.new SyncAction.CreateDir none).failed = 1 := by
  decide

/-- C8 (amended): every successful non-directory task increments exactly one
success counter (`copied_new`, `copied_modified`, `linked`, or `skipped`) and
never `failed`; every failed task increments `failed` and no success counter;
a successful `CreateDir` task is excluded from `total_files` (its initial
increment is decremented back out, leaving the aggregate unchanged), while a
failed `CreateDir` task counts in both `total_files` and `failed`. -/
theorem C8_stats_amended (s : BackupStats) (action : SyncAction) :
    (∀ bytes, action ≠ SyncAction.CreateDir →
      ((update_stats s action (some bytes)).copied_new
          + (update_stats s action (some bytes)).copied_modified
          + (update_stats s action (some bytes)).linked
          + (update_stats s action (some bytes)).skipped
        = s.copied_new + s.copied_modified + s.linked + s.skipped + 1)
      ∧ (update_stats s action (some bytes)).failed = s.failed
      ∧ (update_stats s action (some bytes)).total_files = s.total_files + 1)
    ∧ (∀ bytes, update_stats s SyncAction.CreateDir (some bytes) = s)
    ∧ ((update_stats s action none).failed = s.failed + 1
      ∧ (update_stats s action none).copied_new = s.copied_new
      ∧ (update_stats s action none).copied_modified = s.copied_modified
      ∧ (update_stats s action none).linked = s.linked
      ∧ (update_stats s action none).skipped = s.skipped
      ∧ (update_stats s action none).total_files = s.total_files + 1) := by
  refine ⟨?_, ?_, ?_⟩
  · intro bytes hne
    cases action with
    | CreateDir => exact absurd rfl hne
    | CopyNew => refine ⟨?_, ?_, ?_⟩ <;> (simp [update_stats]; try omega)
    | CopyModified => refine ⟨?_, ?_, ?_⟩ <;> (simp [update_stats]; try omega)
    | Link p => refine ⟨?_, ?_, ?_⟩ <;> (simp [update_stats]; try omega)
    | MakeSymlink t => refine ⟨?_, ?_, ?_⟩ <;> (simp [update_stats]; try omega)
    | Skip => refine ⟨?_, ?_, ?_⟩ <;> (simp [update_stats]; try omega)
  · intro bytes
    simp [update_stats]
  · cases action <;> simp [update_stats]

/-- C8 witness: concrete evaluations of the amended statement at
`BackupStats.new`: a successful `CopyNew` bumps exactly one success counter, a
successful `CreateDir` leaves the aggregate unchanged, and a failure bumps
`failed` alone. -/
theorem C8_stats_amended_witness :
    ((update_stats BackupStats.new SyncAction.CopyNew (some 5)).copied_new
        + (update_stats BackupStats.new SyncAction.CopyNew (some 5)).copied_modified
        + (update_stats BackupStats.new SyncAction.CopyNew (some 5)).linked
        + (update_stats BackupStats.new SyncAction.CopyNew (some 5)).skipped = 1)
    ∧ (update_stats BackupStats.new SyncAction.CopyNew (some 5)).failed = 0
    ∧ update_stats BackupStats.new SyncAction.CreateDir (some 5) = BackupStats.new
    ∧ (update_stats BackupStats.new SyncAction.CopyNew none).failed = 1 := by
  have h := C8_stats_amended BackupStats.new SyncAction.CopyNew
  refine ⟨?_, ?_, ?_, ?_⟩
  · have h1 := (h.1 5 (by decide)).1
    simpa [BackupStats.new] using h1
  · have h2 := (h.1 5 (by decide)).2.1
    simpa [BackupStats.new] using h2
  · exact h.2.1 5
  · have h3 := h.2.2.1
    simpa [BackupStats.new] using h3

/-- Helper: `takeDigits` splits its input. -/
theorem takeDigits_append : ∀ (w : Nat) (cs : List Char),
    (takeDigits w cs).1 ++ (takeDigits w cs).2 = cs
  | 0, _ => rfl
  | _ + 1, [] => rfl
  | w + 1, c :: cs => by
    cases h : c.isDigit
    · simp [takeDigits, h]
    · simp [takeDigits, h, takeDigits_append w cs]

/-- Helper: every character produced by `takeDigits` is a digit. -/
theorem takeDigits_digits : ∀ (w : Nat) (cs : List Char),
    ∀ c ∈ (takeDigits w cs).1, c.isDigit = true
  | 0, _ => by simp [takeDigits]
  | _ + 1, [] => by simp [takeDigits]
  | w + 1, c :: cs => by
    cases h : c.isDigit
    · simp [takeDigits, h]
    · simp only [takeDigits, h, if_true]
      intro d hd
      rcases List.mem_cons.mp hd with rfl | hd'
      · exact h
      · exact takeDigits_digits w cs d hd'

/-- Helper: a successful `scanNumber` consumed a nonempty digit run. -/
theorem scanNumber_spec {w : Nat} {cs : List Char} {v : Nat} {rest : List Char}
    (h : scanNumber w cs = some (v, rest)) :
    ∃ ds, ds ≠ [] ∧ (∀ c ∈ ds, c.isDigit = true) ∧ cs = ds ++ rest := by
  unfold scanNumber at h
  cases he : (takeDigits w cs).1.isEmpty
  · simp only [he, Bool.false_eq_true, if_false, Option.some.injEq, Prod.mk.injEq] at h
    exact ⟨(takeDigits w cs).1, List.isEmpty_eq_false.mp he, takeDigits_digits w cs,
      by rw [← h.2, takeDigits_append]⟩
  · simp [he] at h

/-- Helper: a successful `scanNumberAll` consumed a nonempty digit run. -/
theorem scanNumberAll_spec {cs : List Char} {v : Nat} {rest : List Char}
    (h : scanNumberAll cs = some (v, rest)) :
    ∃ ds, ds ≠ [] ∧ (∀ c ∈ ds, c.isDigit = true) ∧ cs = ds ++ rest := by
  unfold scanNumberAll at h
  cases he : (cs.takeWhile Char.isDigit).isEmpty
  · simp only [he, Bool.false_eq_true, if_false, Option.some.injEq, Prod.mk.injEq] at h
    exact ⟨cs.takeWhile Char.isDigit, List.isEmpty_eq_false.mp he,
      fun c hc => List.mem_takeWhile_imp hc,
      by rw [← h.2, List.takeWhile_append_dropWhile]⟩
  · simp [he] at h

/-- Helper: the rest of a successful `scanNumber` is a suffix of the input. -/
theorem scanNumber_suffix {w : Nat} {cs : List Char} {v : Nat} {rest : List Char}
    (h : scanNumber w cs = some (v, rest)) : rest <:+ cs := by
  obtain ⟨ds, -, -, hds⟩ := scanNumber_spec h
  exact ⟨ds, hds.symm⟩

/-- Helper: the rest of a successful `scanNumberAll` is a suffix of the input. -/
theorem scanNumberAll_suffix {cs : List Char} {v : Nat} {rest : List Char}
    (h : scanNumberAll cs = some (v, rest)) : rest <:+ cs := by
  obtain ⟨ds, -, -, hds⟩ := scanNumberAll_spec h
  exact ⟨ds, hds.symm⟩

/-- Helper: `skipWs` yields a suffix. -/
theorem skipWs_suffix (cs : List Char) : skipWs cs <:+ cs :=
  List.dropWhile_suffix _

/-- Helper: `lit` yields a suffix. -/
theorem lit_suffix {c : Char} {cs rest : List Char}
    (h : lit c cs = some rest) : rest <:+ cs := by
  cases cs with
  | nil => simp [lit] at h
  | cons d cs =>
    simp only [lit] at h
    by_cases hd : d = c
    · rw [if_pos hd] at h
      injection h with h
      rw [← h]
      exact List.suffix_cons d cs
    · rw [if_neg hd] at h
      exact absurd h (by simp)

/-- Helper: the rest of a successful `scanField` is a suffix of the input. -/
theorem scanField_suffix {cs : List Char} {v : Nat} {rest : List Char}
    (h : scanField cs = some (v, rest)) : rest <:+ cs :=
  (scanNumber_suffix h).trans (skipWs_suffix cs)

/-- Helper: the rest of a successful `scanYear` is a suffix of the input. -/
theorem scanYear_suffix {cs : List Char} {y : Int} {rest : List Char}
    (h : scanYear cs = some (y, rest)) : rest <:+ cs := by
  unfold scanYear at h
  by_cases h1 : (skipWs cs).head? = some '-'
  · rw [if_pos h1, Option.map_eq_some'] at h
    obtain ⟨⟨v, r⟩, hr, he⟩ := h
    cases he
    exact ((scanNumberAll_suffix hr).trans (List.tail_suffix _)).trans (skipWs_suffix cs)
  · rw [if_neg h1] at h
    by_cases h2 : (skipWs cs).head? = some '+'
    · rw [if_pos h2, Option.map_eq_some'] at h
      obtain ⟨⟨v, r⟩, hr, he⟩ := h
      cases he
      exact ((scanNumberAll_suffix hr).trans (List.tail_suffix _)).trans (skipWs_suffix cs)
    · rw [if_neg h2, Option.map_eq_some'] at h
      obtain ⟨⟨v, r⟩, hr, he⟩ := h
      cases he
      exact (scanNumber_suffix hr).trans (skipWs_suffix cs)

/-- Helper: a nonempty suffix determines the last element. -/
theorem getLast?_of_suffix {α : Type} {l₁ l₂ : List α} (h1 : l₁ ≠ [])
    (h2 : l₁ <:+ l₂) : l₂.getLast? = l₁.getLast? := by
  obtain ⟨t, rfl⟩ := h2
  rw [List.getLast?_append]
  rcases hl : l₁.getLast? with _ | x
  · exact absurd (List.getLast?_eq_none_iff.mp hl) h1
  · rfl

/-- Helper: the last element of a list, when present, is a member. -/
theorem mem_of_getLast?_eq {α : Type} : ∀ {l : List α} {m : α},
    l.getLast? = some m → m ∈ l
  | [], _, h => by simp at h
  | [a], m, h => by
    rw [List.getLast?_singleton] at h
    injection h with h
    rw [← h]
    exact List.mem_singleton_self a
  | a :: b :: t, m, h => by
    rw [List.getLast?_cons_cons] at h
    exact List.mem_cons_of_mem a (mem_of_getLast?_eq h)

/-- Helper: a fully consuming `scanField` ends its input with a digit. -/
theorem scanField_full {cs : List Char} {v : Nat}
    (h : scanField cs = some (v, [])) :
    ∃ d, cs.getLast? = some d ∧ d.isDigit = true := by
  obtain ⟨ds, hne, hdig, hds⟩ := scanNumber_spec h
  rw [List.append_nil] at hds
  have hsuf : ds <:+ cs := hds ▸ skipWs_suffix cs
  have hlast := getLast?_of_suffix hne hsuf
  rcases hl : ds.getLast? with _ | d
  · exact absurd (List.getLast?_eq_none_iff.mp hl) hne
  · exact ⟨d, by rw [hlast, hl], hdig d (mem_of_getLast?_eq hl)⟩

/-- Helper: a fully consuming `parseTimestamp` means the name ends in a digit
(the final format item `%S` consumes digits and nothing follows it). -/
theorem parseTimestamp_ends_digit {cs : List Char} {f : TsFields}
    (h : parseTimestamp cs = some (f, [])) :
    ∃ d, cs.getLast? = some d ∧ d.isDigit = true := by
  unfold parseTimestamp at h
  rw [Option.bind_eq_some] at h
  obtain ⟨⟨y, ycs⟩, hy, h⟩ := h
  try dsimp only at h
  rw [Option.bind_eq_some] at h
  obtain ⟨cs1, hl1, h⟩ := h
  try dsimp only at h
  rw [Option.bind_eq_some] at h
  obtain ⟨⟨mo, mcs⟩, hf1, h⟩ := h
  try dsimp only at h
  rw [Option.bind_eq_some] at h
  obtain ⟨cs2, hl2, h⟩ := h
  try dsimp only at h
  rw [Option.bind_eq_some] at h
  obtain ⟨⟨dd, dcs⟩, hf2, h⟩ := h
  try dsimp only at h
  rw [Option.bind_eq_some] at h
  obtain ⟨cs3, hl3, h⟩ := h
  try dsimp only at h
  rw [Option.bind_eq_some] at h
  obtain ⟨⟨hh, hcs⟩, hf3, h⟩ := h
  try dsimp only at h
  rw [Option.bind_eq_some] at h
  obtain ⟨cs4, hl4, h⟩ := h
  try dsimp only at h
  rw [Option.bind_eq_some] at h
  obtain ⟨⟨mi, mics⟩, hf4, h⟩ := h
  try dsimp only at h
  rw [Option.bind_eq_some] at h
  obtain ⟨cs5, hl5, h⟩ := h
  try dsimp only at h
  rw [Option.bind_eq_some] at h
  obtain ⟨⟨sec, csf⟩, hf5, h⟩ := h
  try dsimp only at h
  injection h with h
  injection h with hfield hrest
  subst hrest
  have s1 : ycs <:+ cs := scanYear_suffix hy
  have s2 : cs1 <:+ cs := (lit_suffix hl1).trans s1
  have s3 : mcs <:+ cs := (scanField_suffix hf1).trans s2
  have s4 : cs2 <:+ cs := (lit_suffix hl2).trans s3
  have s5 : dcs <:+ cs := (scanField_suffix hf2).trans s4
  have s6 : cs3 <:+ cs := (lit_suffix hl3).trans s5
  have s7 : hcs <:+ cs := (scanField_suffix hf3).trans s6
  have s8 : cs4 <:+ cs := (lit_suffix hl4).trans s7
  have s9 : mics <:+ cs := (scanField_suffix hf4).trans s8
  have s10 : cs5 <:+ cs := (lit_suffix hl5).trans s9
  obtain ⟨d, hd, hdig⟩ := scanField_full hf5
  have hne : cs5 ≠ [] := by
    intro hnil
    rw [hnil] at hd
    simp at hd
  exact ⟨d, by rw [getLast?_of_suffix hne s10, hd], hdig⟩

/-- Helper: `charListLe` is transitive. -/
theorem charListLe_trans : ∀ {a b c : List Char}, charListLe a b = true →
    charListLe b c = true → charListLe a c = true
  | [], _, _, _, _ => rfl
  | _ :: _, [], _, h, _ => by simp [charListLe] at h
  | _ :: _, _ :: _, [], _, h => by simp [charListLe] at h
  | x :: xs, y :: ys, z :: zs, h1, h2 => by
    simp only [charListLe] at h1 h2 ⊢
    by_cases hxy : x.toNat < y.toNat
    · by_cases hyz : y.toNat < z.toNat
      · simp [show x.toNat < z.toNat by omega]
      · by_cases hzy : z.toNat < y.toNat
        · rw [if_neg hyz, if_pos hzy] at h2
          exact absurd h2 (by simp)
        · simp [show x.toNat < z.toNat by omega]
    · by_cases hyx : y.toNat < x.toNat
      · rw [if_neg hxy, if_pos hyx] at h1
        exact absurd h1 (by simp)
      · rw [if_neg hxy, if_neg hyx] at h1
        by_cases hyz : y.toNat < z.toNat
        · simp [show x.toNat < z.toNat by omega]
        · by_cases hzy : z.toNat < y.toNat
          · rw [if_neg hyz, if_pos hzy] at h2
            exact absurd h2 (by simp)
          · rw [if_neg hyz, if_neg hzy] at h2
            rw [if_neg (show ¬x.toNat < z.toNat by omega),
              if_neg (show ¬z.toNat < x.toNat by omega)]
            exact charListLe_trans h1 h2

/-- Helper: `charListLe` is total. -/
theorem charListLe_total : ∀ (a b : List Char),
    charListLe a b = true ∨ charListLe b a = true
  | [], _ => Or.inl rfl
  | _ :: _, [] => Or.inr rfl
  | x :: xs, y :: ys => by
    simp only [charListLe]
    by_cases hxy : x.toNat < y.toNat
    · left
      simp [hxy]
    · by_cases hyx : y.toNat < x.toNat
      · right
        simp [hyx]
      · rcases charListLe_total xs ys with h | h
        · left
          simp [hxy, hyx, h]
        · right
          simp [hxy, hyx, h]

/-- Helper: `charListLe` is antisymmetric. -/
theorem charListLe_antisymm : ∀ {a b : List Char}, charListLe a b = true →
    charListLe b a = true → a = b
  | [], [], _, _ => rfl
  | [], _ :: _, _, h => by simp [charListLe] at h
  | _ :: _, [], h, _ => by simp [charListLe] at h
  | x :: xs, y :: ys, h1, h2 => by
    simp only [charListLe] at h1 h2
    by_cases hxy : x.toNat < y.toNat
    · rw [if_neg (show ¬y.toNat < x.toNat by omega), if_pos hxy] at h2
      exact absurd h2 (by simp)
    · by_cases hyx : y.toNat < x.toNat
      · rw [if_neg hxy, if_pos hyx] at h1
        exact absurd h1 (by simp)
      · rw [if_neg hxy, if_neg hyx] at h1
        rw [if_neg hyx, if_neg hxy] at h2
        have hn : x.toNat = y.toNat := by omega
        have hc : x = y := Char.ext (UInt32.toNat.inj hn)
        rw [hc, charListLe_antisymm h1 h2]

/-- Helper: `charListLe` is reflexive. -/
theorem charListLe_refl : ∀ (a : List Char), charListLe a a = true
  | [] => rfl
  | x :: xs => by
    simp only [charListLe]
    simp [charListLe_refl xs]

/-- Helper: `nameLe` is transitive. -/
theorem nameLe_trans {a b c : String} (h1 : nameLe a b = true)
    (h2 : nameLe b c = true) : nameLe a c = true :=
  charListLe_trans h1 h2

/-- Helper: `nameLe` is total. -/
theorem nameLe_total (a b : String) : (nameLe a b || nameLe b a) = true := by
  rw [Bool.or_eq_true]
  exact charListLe_total a.toList b.toList

/-- Helper: `nameLe` is antisymmetric. -/
theorem nameLe_antisymm {a b : String} (h1 : nameLe a b = true)
    (h2 : nameLe b a = true) : a = b :=
  String.toList_inj.mp (charListLe_antisymm h1 h2)

/-- Helper: `nameLe` is reflexive. -/
theorem nameLe_refl (a : String) : nameLe a a = true :=
  charListLe_refl a.toList

/-- Helper: membership in the sorted generation listing. -/
theorem mem_find_all_backups {entries : List DirEntry} {n : String} :
    n ∈ find_all_backups entries
      ↔ ∃ e, e ∈ entries ∧ backupFilter e = true ∧ e.name = n := by
  unfold find_all_backups
  rw [List.mem_insertionSort]
  simp only [List.mem_map, List.mem_filter]
  constructor
  · rintro ⟨e, ⟨he, hf⟩, hn⟩
    exact ⟨e, he, hf, hn⟩
  · rintro ⟨e, he, hf, hn⟩
    exact ⟨e, ⟨he, hf⟩, hn⟩

/-- Helper: a valid generation name ends in a digit, hence never ends in
`".partial"`. -/
theorem valid_name_not_partial {name : String}
    (h : is_valid_backup_folder_name name = true) :
    endsWithPartial name = false := by
  unfold is_valid_backup_folder_name at h
  rcases hp : parseTimestamp name.toList with _ | ⟨f, rest⟩
  · rw [hp] at h
    simp at h
  · rw [hp] at h
    rcases rest with _ | ⟨c, r⟩
    · obtain ⟨d, hd, hdig⟩ := parseTimestamp_ends_digit hp
      cases hE : endsWithPartial name
      · rfl
      · exfalso
        unfold endsWithPartial at hE
        have hsuf := List.isSuffixOf_iff_suffix.mp hE
        have hlast := getLast?_of_suffix
          (show ".partial".toList ≠ [] by decide) hsuf
        rw [hd] at hlast
        have hdl : d = 'l' := by
          have hpl : (".partial".toList).getLast? = some 'l' := by decide
          rw [hpl] at hlast
          exact Option.some_injective _ hlast
        rw [hdl] at hdig
        exact absurd hdig (by decide)
    · simp at h

/-- Helper: in a `nameLe`-sorted list the last element bounds every member. -/
theorem sorted_le_getLast :
    ∀ {l : List String}, l.Sorted (fun a b => nameLe a b = true) →
    ∀ {m : String}, l.getLast? = some m → ∀ n ∈ l, nameLe n m = true
  | [], _, _, h => by simp at h
  | [a], _, m, h => by
    rw [List.getLast?_singleton] at h
    injection h with h
    intro n hn
    rw [List.mem_singleton] at hn
    rw [hn, ← h]
    exact nameLe_refl a
  | a :: b :: t, hs, m, h => by
    rw [List.getLast?_cons_cons] at h
    intro n hn
    rcases List.mem_cons.mp hn with rfl | hn'
    · have hm : m ∈ b :: t := mem_of_getLast?_eq h
      exact List.rel_of_sorted_cons hs m hm
    · exact sorted_le_getLast (List.Sorted.of_cons hs) h n hn'

/-- C7: a directory entry's name appears in the generation listing iff it
parses as the timestamp format; `current` and `".partial"`-suffixed names are
never listed; `find_all_backups` is sorted ascending; and
`find_latest_backup` is the greatest listed name (`none` iff the listing is
empty). -/
theorem C7_generation_listing (entries : List DirEntry) :
    (∀ e ∈ entries, e.isDir = true →
      (e.name ∈ find_all_backups entries
        ↔ is_valid_backup_folder_name e.name = true))
    ∧ (∀ n ∈ find_all_backups entries, n ≠ "current" ∧ endsWithPartial n = false)
    ∧ (find_all_backups entries).Sorted (fun a b => nameLe a b = true)
    ∧ (find_latest_backup entries = none ↔ find_all_backups entries = [])
    ∧ (∀ m, find_latest_backup entries = some m →
        m ∈ find_all_backups entries
        ∧ ∀ n ∈ find_all_backups entries, nameLe n m = true) := by
  refine ⟨?_, ?_, ?_, ?_, ?_⟩
  · intro e he hd
    rw [mem_find_all_backups]
    constructor
    · rintro ⟨e', -, hf, hname⟩
      unfold backupFilter at hf
      simp only [Bool.and_eq_true] at hf
      rw [← hname]
      exact hf.2
    · intro hv
      refine ⟨e, he, ?_, rfl⟩
      unfold backupFilter
      rw [hd, hv, valid_name_not_partial hv]
      have hcur : (e.name == "current") = false := by
        rw [beq_eq_false_iff_ne]
        intro hc
        rw [hc] at hv
        exact absurd hv (by decide)
      rw [hcur]
      rfl
  · intro n hn
    obtain ⟨e, -, hf, hname⟩ := mem_find_all_backups.mp hn
    unfold backupFilter at hf
    simp only [Bool.and_eq_true, Bool.not_eq_true'] at hf
    refine ⟨?_, ?_⟩
    · rw [← hname]
      exact beq_eq_false_iff_ne.mp hf.1.2
    · rw [← hname]
      exact hf.1.1.2
  · haveI : IsTrans String (fun a b => nameLe a b = true) :=
      ⟨fun _ _ _ h1 h2 => nameLe_trans h1 h2⟩
    haveI : IsTotal String (fun a b => nameLe a b = true) :=
      ⟨fun a b => charListLe_total a.toList b.toList⟩
    exact List.sorted_insertionSort _ _
  · exact List.getLast?_eq_none_iff
  · intro m hm
    haveI : IsTrans String (fun a b => nameLe a b = true) :=
      ⟨fun _ _ _ h1 h2 => nameLe_trans h1 h2⟩
    haveI : IsTotal String (fun a b => nameLe a b = true) :=
      ⟨fun a b => charListLe_total a.toList b.toList⟩
    have hsorted : (find_all_backups entries).Sorted (fun a b => nameLe a b = true) :=
      List.sorted_insertionSort _ _
    exact ⟨mem_of_getLast?_eq hm, sorted_le_getLast hsorted hm⟩

/-- C7 witness: on the concrete listing `entriesC7`, exactly the three valid
timestamped directories survive, sorted ascending, and the latest is the
lexicographically greatest. -/
theorem C7_generation_listing_witness :
    "2024-01-15_14-30-00" ∈ find_all_backups entriesC7
    ∧ find_all_backups entriesC7
        = ["2023-12-31_23-59-59", "2024-01-15_14-30-00", "2024-03-01_10-00-00"]
    ∧ find_latest_backup entriesC7 = some "2024-03-01_10-00-00"
    ∧ (∀ n ∈ find_all_backups entriesC7, nameLe n "2024-03-01_10-00-00" = true) := by
  have h := C7_generation_listing entriesC7
  refine ⟨?_, by decide, by decide, ?_⟩
  · exact (h.1 ⟨"2024-01-15_14-30-00", true⟩ (by decide) rfl).mpr (by decide)
  · exact (h.2.2.2.2 "2024-03-01_10-00-00" (by decide)).2

/-- Helper: two filters commute. -/
theorem filter_swap {α : Type} (p q : α → Bool) (l : List α) :
    (l.filter p).filter q = (l.filter q).filter p := by
  rw [List.filter_filter, List.filter_filter]
  congr 1
  funext a
  rw [Bool.and_comm]

/-- Helper: mapping names commutes with a name-based filter. -/
theorem map_name_filter (p : String → Bool) (l : List DirEntry) :
    (l.filter (fun e => p e.name)).map (fun e => e.name)
      = (l.map (fun e => e.name)).filter p := by
  induction l with
  | nil => rfl
  | cons a t ih =>
    cases h : p a.name
    · simp [List.filter_cons, h, ih]
    · simp [List.filter_cons, h, ih]

/-- Helper: filtering an append by "not a member of the left part" keeps
exactly the right part, when the parts are disjoint. -/
theorem filter_not_mem_append {T D : List String}
    (hdisj : ∀ a ∈ T, a ∉ D) :
    (T ++ D).filter (fun nm => !(decide (nm ∈ T))) = D := by
  rw [List.filter_append]
  have h1 : T.filter (fun nm => !(decide (nm ∈ T))) = [] := by
    rw [List.filter_eq_nil_iff]
    intro a ha
    simp [ha]
  have h2 : D.filter (fun nm => !(decide (nm ∈ T))) = D := by
    rw [List.filter_eq_self]
    intro a ha
    simp only [Bool.not_eq_true', decide_eq_false_iff_not]
    exact fun hmem => hdisj a hmem ha
  rw [h1, h2, List.nil_append]

/-- C9: with `n` valid generations and keep-count `keep`: when `n ≤ keep` or
in dry-run mode nothing is deleted; otherwise exactly the `n − keep` oldest
generation names (the first `n − keep` of the ascending listing) are deleted,
the remaining listing is the `keep` greatest names, and every deleted name
precedes every kept one. -/
theorem C9_prune (entries : List DirEntry) (keep : Nat) (dry_run : Bool)
    (hnd : (entries.map (fun e => e.name)).Nodup) :
    ((find_all_backups entries).length ≤ keep ∨ dry_run = true →
      prune_backups entries keep dry_run = ([], entries))
    ∧ (keep < (find_all_backups entries).length → dry_run = false →
        (prune_backups entries keep dry_run).1
          = (find_all_backups entries).take
              ((find_all_backups entries).length - keep)
        ∧ (prune_backups entries keep dry_run).1.length
          = (find_all_backups entries).length - keep
        ∧ find_all_backups (prune_backups entries keep dry_run).2
          = (find_all_backups entries).drop
              ((find_all_backups entries).length - keep)
        ∧ (find_all_backups (prune_backups entries keep dry_run).2).length = keep
        ∧ (∀ d ∈ (prune_backups entries keep dry_run).1,
            ∀ r ∈ find_all_backups (prune_backups entries keep dry_run).2,
              nameLe d r = true)) := by
  haveI hTrans : IsTrans String (fun a b => nameLe a b = true) :=
    ⟨fun _ _ _ h1 h2 => nameLe_trans h1 h2⟩
  haveI hTotal : IsTotal String (fun a b => nameLe a b = true) :=
    ⟨fun a b => charListLe_total a.toList b.toList⟩
  haveI hAnti : IsAntisymm String (fun a b => nameLe a b = true) :=
    ⟨fun _ _ h1 h2 => nameLe_antisymm h1 h2⟩
  constructor
  · intro h
    rcases h with h | h
    · simp [prune_backups, h]
    · by_cases hlen : (find_all_backups entries).length ≤ keep
      · simp [prune_backups, hlen]
      · simp [prune_backups, hlen, h]
  · intro hlen hdry
    have hnle : ¬ (find_all_backups entries).length ≤ keep := by omega
    have hred : prune_backups entries keep dry_run
        = ((find_all_backups entries).take
            ((find_all_backups entries).length - keep),
           entries.filter (fun e => !(decide (e.name ∈
             (find_all_backups entries).take
               ((find_all_backups entries).length - keep))))) := by
      simp [prune_backups, hnle, hdry]
    have hLnd : ((entries.filter backupFilter).map (fun e => e.name)).Nodup :=
      List.Nodup.sublist
        (List.Sublist.map (fun e => e.name) (List.filter_sublist entries)) hnd
    have hperm : (find_all_backups entries).Perm
        ((entries.filter backupFilter).map (fun e => e.name)) :=
      List.perm_insertionSort _ _
    have hSnd : (find_all_backups entries).Nodup := hperm.nodup_iff.mpr hLnd
    have hsorted : (find_all_backups entries).Sorted (fun a b => nameLe a b = true) :=
      List.sorted_insertionSort _ _
    have hndapp : ((find_all_backups entries).take
          ((find_all_backups entries).length - keep)
        ++ (find_all_backups entries).drop
          ((find_all_backups entries).length - keep)).Nodup := by
      rw [List.take_append_drop]
      exact hSnd
    obtain ⟨-, -, hdisj⟩ := List.nodup_append.mp hndapp
    have hdisj' : ∀ a ∈ (find_all_backups entries).take
        ((find_all_backups entries).length - keep),
        a ∉ (find_all_backups entries).drop
          ((find_all_backups entries).length - keep) :=
      fun a ha hc => hdisj ha hc
    have hSfil : (find_all_backups entries).filter
        (fun nm => !(decide (nm ∈ (find_all_backups entries).take
          ((find_all_backups entries).length - keep))))
        = (find_all_backups entries).drop
          ((find_all_backups entries).length - keep) := by
      have hsplit : (find_all_backups entries).filter
          (fun nm => !(decide (nm ∈ (find_all_backups entries).take
            ((find_all_backups entries).length - keep))))
          = ((find_all_backups entries).take
              ((find_all_backups entries).length - keep)
            ++ (find_all_backups entries).drop
              ((find_all_backups entries).length - keep)).filter
            (fun nm => !(decide (nm ∈ (find_all_backups entries).take
              ((find_all_backups entries).length - keep)))) := by
        rw [List.take_append_drop]
      rw [hsplit, filter_not_mem_append hdisj']
    have hrem : find_all_backups (prune_backups entries keep dry_run).2
        = (find_all_backups entries).drop
          ((find_all_backups entries).length - keep) := by
      rw [hred]
      show List.insertionSort (fun a b => nameLe a b = true)
        (((entries.filter (fun e => !(decide (e.name ∈
          (find_all_backups entries).take
            ((find_all_backups entries).length - keep))))).filter
          backupFilter).map (fun e => e.name)) = _
      rw [filter_swap, map_name_filter (fun nm => !(decide (nm ∈
        (find_all_backups entries).take
          ((find_all_backups entries).length - keep))))]
      refine List.eq_of_perm_of_sorted ?_ (List.sorted_insertionSort _ _)
        (List.Pairwise.sublist (List.drop_sublist _ _) hsorted)
      have p1 := List.perm_insertionSort (fun a b => nameLe a b = true)
        (((entries.filter backupFilter).map (fun e => e.name)).filter
          (fun nm => !(decide (nm ∈ (find_all_backups entries).take
            ((find_all_backups entries).length - keep)))))
      have p2 := List.Perm.filter
        (fun nm => !(decide (nm ∈ (find_all_backups entries).take
          ((find_all_backups entries).length - keep)))) hperm.symm
      exact hSfil ▸ (p1.trans p2)
    refine ⟨?_, ?_, hrem, ?_, ?_⟩
    · rw [hred]
    · rw [hred]
      simp only [List.length_take]
      omega
    · rw [hrem, List.length_drop]
      omega
    · intro d hd r hr
      rw [hred] at hd
      rw [hrem] at hr
      have hpw := hsorted
      rw [← List.take_append_drop ((find_all_backups entries).length - keep)
        (find_all_backups entries)] at hpw
      exact (List.pairwise_append.mp hpw).2.2 d hd r hr

/-- C9 witness: on `entriesC7` (three valid generations): keeping 5 or dry-run
deletes nothing; keeping 1 deletes exactly the two oldest names and leaves the
single greatest generation. -/
theorem C9_prune_witness :
    prune_backups entriesC7 5 false = ([], entriesC7)
    ∧ prune_backups entriesC7 1 true = ([], entriesC7)
    ∧ (prune_backups entriesC7 1 false).1
        = ["2023-12-31_23-59-59", "2024-01-15_14-30-00"]
    ∧ find_all_backups (prune_backups entriesC7 1 false).2
        = ["2024-03-01_10-00-00"] := by
  have h5 := C9_prune entriesC7 5 false (by decide)
  have h1t := C9_prune entriesC7 1 true (by decide)
  have h1 := C9_prune entriesC7 1 false (by decide)
  refine ⟨h5.1 (Or.inl (by decide)), h1t.1 (Or.inr rfl), ?_, ?_⟩
  · rw [(h1.2 (by decide) rfl).1]
    decide
  · rw [(h1.2 (by decide) rfl).2.2.1]
    decide
